import Mathlib

/-!
Verification of the motd-embed-api core components: a shallow embedding in
Lean 4 of the format-code parser (`motd_parser.py`), the address resolver
and lookup orchestration (`server.py`), and the bounded TTL/LRU cache
(`cache.py`), together with theorems settling the specification claims.

Strings are modelled with Lean `String`/`List Char`.  Python case folding
(`str.lower`, `re.IGNORECASE`) is modelled at the ASCII level with
`Char.toLower`, which agrees with Python on every character appearing in
the format-code tables.
-/

namespace MotdEmbed

/-! ## motd_parser.py -/

/-- Mapping of Minecraft color codes to CSS classes (`COLOR_CODES`). -/
def COLOR_CODES : List (Char × String) :=
  [('0', "mcformat-black"),
   ('1', "mcformat-dark-blue"),
   ('2', "mcformat-dark-green"),
   ('3', "mcformat-dark-aqua"),
   ('4', "mcformat-dark-red"),
   ('5', "mcformat-dark-purple"),
   ('6', "mcformat-gold"),
   ('7', "mcformat-gray"),
   ('8', "mcformat-dark-gray"),
   ('9', "mcformat-blue"),
   ('a', "mcformat-green"),
   ('b', "mcformat-aqua"),
   ('c', "mcformat-red"),
   ('d', "mcformat-light-purple"),
   ('e', "mcformat-yellow"),
   ('f', "mcformat-white")]

/-- Mapping of Minecraft style codes to CSS classes (`FORMAT_CODES`). -/
def FORMAT_CODES : List (Char × String) :=
  [('k', "mcformat-obfuscated"),
   ('l', "mcformat-bold"),
   ('m', "mcformat-strikethrough"),
   ('n', "mcformat-underline"),
   ('o', "mcformat-italic"),
   ('r', "mcformat-reset")]

/-- Python dict membership / indexing: first entry with the given key. -/
def lookupCode (codes : List (Char × String)) (c : Char) : Option String :=
  (codes.find? (fun p => p.1 == c)).map (fun p => p.2)

/-- `COLOR_CODES.values()`. -/
def colorValues : List String := COLOR_CODES.map (fun p => p.2)

/-- Single-character `str.replace`: every occurrence of `old` becomes `new`. -/
def replaceChar (old : Char) (new : List Char) : List Char → List Char
  | [] => []
  | c :: rest => (if c = old then new else [c]) ++ replaceChar old new rest

/-- The HTML-escape step of `parse_motd` (lines 50-55): the four sequential
`str.replace` calls, `&` first so later entities are not re-escaped. -/
def escapeChars (l : List Char) : List Char :=
  replaceChar '"' "&quot;".data
    (replaceChar '>' "&gt;".data
      (replaceChar '<' "&lt;".data
        (replaceChar '&' "&amp;".data l)))

/-- Membership in the lowercase code-character set `0-9a-fk-or`. -/
def isCodeKey (l : Char) : Bool :=
  (decide ('0' ≤ l) && decide (l ≤ '9')) ||
  (decide ('a' ≤ l) && decide (l ≤ 'f')) ||
  (decide ('k' ≤ l) && decide (l ≤ 'o')) ||
  (l == 'r')

/-- Character class of the split regex `(§[0-9a-fk-or])` with `re.IGNORECASE`
(ASCII case folding). -/
def isCodeChar (c : Char) : Bool :=
  isCodeKey c.toLower

/-- Tokens produced by scanning for the split regex: recognized two-character
markers, and single literal characters (coalesced into runs afterwards). -/
inductive MotdTok where
  | lit (cs : List Char)
  | marker (c : Char)
  deriving Repr, DecidableEq

/-- Left-to-right scan for non-overlapping matches of `§[0-9a-fk-or]`
(the behaviour of `re.split` with a capturing group): at each position a
`§` followed by a code character is a marker; any other character is
literal and scanning resumes at the next character. -/
def tokenize : List Char → List MotdTok
  | [] => []
  | [c] => [MotdTok.lit [c]]
  | c1 :: c2 :: rest =>
    if c1 = '§' ∧ isCodeChar c2 then MotdTok.marker c2 :: tokenize rest
    else MotdTok.lit [c1] :: tokenize (c2 :: rest)

/-- Merge adjacent literal characters into maximal literal runs, so that the
token list matches the alternating pieces returned by `re.split` (empty
pieces are dropped, as the Python loop skips them). -/
def coalesce : List MotdTok → List MotdTok
  | [] => []
  | MotdTok.lit a :: rest =>
    match coalesce rest with
    | MotdTok.lit b :: more => MotdTok.lit (a ++ b) :: more
    | other => MotdTok.lit a :: other
  | MotdTok.marker c :: rest => MotdTok.marker c :: coalesce rest

/-- The list of parts the Python loop iterates over: literal runs as-is, and
each captured marker as the two-character string `§c`. -/
def partsOf (l : List Char) : List (List Char) :=
  (coalesce (tokenize l)).map (fun t =>
    match t with
    | MotdTok.lit cs => cs
    | MotdTok.marker c => ['§', c])

/-- The reset element emitted for code `r` (hardcoded lowercase in the source). -/
def resetCodeSpan : String := "<span class=\"mcformat-code\">§r</span>"

/-- The marker element `<span class="mcformat-code">§c</span>`, with the
second character in its original case. -/
def markerSpan (c : Char) : String :=
  "<span class=\"mcformat-code\">§" ++ String.singleton c ++ "</span>"

/-- The element wrapping a literal run (lines 87-92): `mcformat` plus the
active classes in list order when any are active, the default reset class
otherwise. -/
def litSpan (part : List Char) (classes : List String) : String :=
  if classes = [] then
    "<span class=\"mcformat mcformat-reset\">" ++ String.mk part ++ "</span>"
  else
    "<span class=\"" ++ String.intercalate " " ("mcformat" :: classes) ++ "\">"
      ++ String.mk part ++ "</span>"

/-- The per-character effect of the four escape replacements: each of the
four reserved characters becomes its entity, every other character is
unchanged. -/
def escMap (c : Char) : List Char :=
  if c = '&' then "&amp;".data
  else if c = '<' then "&lt;".data
  else if c = '>' then "&gt;".data
  else if c = '"' then "&quot;".data
  else [c]

/-- The sequence of recognized markers in a token stream, in order. -/
def markersOf (ts : List MotdTok) : List Char :=
  ts.filterMap (fun t =>
    match t with
    | MotdTok.marker c => some c
    | MotdTok.lit _ => none)

/-- The number of active color classes in a class list. -/
def colorCount (classes : List String) : Nat :=
  (classes.filter (fun x => colorValues.contains x)).length

/-- One iteration of the `for part in parts` loop of `parse_motd`
(lines 63-92): given the current `current_classes` and the part, returns the
emitted elements and the updated class list.  A two-character part starting
with `§` is handled by the code branches (reset / color / style); a
two-character `§`-part matching no known code emits nothing (the `if/elif`
chain has no `else`); any other part is a literal run. -/
def loopBody (classes : List String) (part : List Char) : List String × List String :=
  if part = [] then ([], classes)
  else if part.head? = some '§' ∧ part.length = 2 then
    let c := part.getD 1 ' '
    let code := c.toLower
    if code = 'r' then ([resetCodeSpan], [])
    else
      match lookupCode COLOR_CODES code with
      | some col =>
        ([markerSpan c],
         (classes.filter (fun x => !(colorValues.contains x))) ++ [col])
      | none =>
        match lookupCode FORMAT_CODES code with
        | some fc =>
          ([markerSpan c], if classes.contains fc then classes else classes ++ [fc])
        | none => ([], classes)
  else ([litSpan part classes], classes)

/-- The whole parts loop: concatenation of the emitted elements. -/
def processParts : List (List Char) → List String → List String
  | [], _ => []
  | part :: rest, classes =>
    (loopBody classes part).1 ++ processParts rest (loopBody classes part).2

/-- The parser state (`current_classes`) after processing a list of parts. -/
def classesAfter (parts : List (List Char)) (classes : List String) : List String :=
  parts.foldl (fun cs p => (loopBody cs p).2) classes

/-- `parse_motd` (motd_parser.py lines 36-94): empty input yields the empty
string; otherwise HTML-escape, split on format markers, and run the loop
starting from an empty class list. -/
def parse_motd (motd_text : String) : String :=
  if motd_text = "" then ""
  else String.join (processParts (partsOf (escapeChars motd_text.data)) [])

/-! ## JSON values (Python objects handled by `parse_motd_json` and
`get_server_info`) -/

/-- Python values reachable through a decoded JSON status description:
strings, integers, booleans, `None`, lists and dicts (association lists
with distinct keys, in insertion order). -/
inductive Json where
  | str (s : String)
  | num (n : Int)
  | bool (b : Bool)
  | null
  | arr (xs : List Json)
  | obj (fields : List (String × Json))
  deriving Repr

/-- Python truthiness of a `Json` value (`if text:` and friends). -/
def truthy : Json → Bool
  | .str s => !(s == "")
  | .num n => !(n == 0)
  | .bool b => b
  | .null => false
  | .arr xs => !xs.isEmpty
  | .obj fs => !fs.isEmpty

/-- Dict lookup: `d[k]` / `k in d` (keys are unique, first match). -/
def getField (fs : List (String × Json)) (k : String) : Option Json :=
  (fs.find? (fun p => p.1 == k)).map (fun p => p.2)

/-- Python iteration over a value (`for item in x`): lists yield their
elements, strings their characters, dicts their keys; numbers, booleans
and `None` are not iterable (`TypeError`, modelled as `none`). -/
def iterJson : Json → Option (List Json)
  | .arr xs => some xs
  | .str s => some (s.data.map (fun c => Json.str (String.singleton c)))
  | .obj fs => some (fs.map (fun kv => Json.str kv.1))
  | _ => none

/-- An apostrophe character, used by `pyRepr` for string quoting. -/
def sq : String := String.singleton (Char.ofNat 39)

mutual

/-- Python `repr` of a `Json` value (strings rendered with single quotes;
Python would switch quote style for strings containing a quote, which is
not modelled). -/
def pyRepr : Json → String
  | .str s => sq ++ s ++ sq
  | .num n => toString n
  | .bool b => cond b "True" "False"
  | .null => "None"
  | .arr xs => "[" ++ String.intercalate ", " (pyReprList xs) ++ "]"
  | .obj fs => "\x7b" ++ String.intercalate ", " (pyReprFields fs) ++ "\x7d"

/-- `repr` of each element of a list. -/
def pyReprList : List Json → List String
  | [] => []
  | j :: rest => pyRepr j :: pyReprList rest

/-- `repr` of each key/value pair of a dict. -/
def pyReprFields : List (String × Json) → List String
  | [] => []
  | (k, v) :: rest => (sq ++ k ++ sq ++ ": " ++ pyRepr v) :: pyReprFields rest

end

/-- Python `str()` of a `Json` value. -/
def pyStr : Json → String
  | .str s => s
  | j => pyRepr j

/-- One entry of the `extra` loop of `parse_motd_json` (lines 123-129):
dict entries contribute `parse_motd` of their truthy `text` field, string
entries are parsed directly, any other entry is skipped.  `none` models an
uncaught exception (`parse_motd` applied to a truthy non-string `text`). -/
def parseExtraItem : Json → Option String
  | .obj g =>
    let it := (getField g "text").getD (Json.str "")
    if truthy it then
      match it with
      | .str s => some (parse_motd s)
      | _ => none
    else some ""
  | .str s => some (parse_motd s)
  | _ => some ""

/-- The `extra` loop over a list of entries, concatenating the results and
propagating an exception from any entry. -/
def parseExtraItems : List Json → Option String
  | [] => some ""
  | item :: rest =>
    match parseExtraItem item, parseExtraItems rest with
    | some a, some b => some (a ++ b)
    | _, _ => none

/-- `parse_motd_json` (motd_parser.py lines 97-131): strings delegate to
`parse_motd`; non-dict non-string input yields `""`; a dict contributes
`parse_motd` of its truthy `text` field followed by the parsed entries of
its `extra` list.  `none` models an uncaught exception (`text` truthy but
not a string, or `extra` present but not iterable). -/
def parse_motd_json : Json → Option String
  | .str s => some (parse_motd s)
  | .obj fs =>
    let textPart : Option String :=
      match getField fs "text" with
      | none => some ""
      | some t =>
        if truthy t then
          match t with
          | .str s => some (parse_motd s)
          | _ => none
        else some ""
    let extraPart : Option String :=
      match getField fs "extra" with
      | none => some ""
      | some e =>
        match iterJson e with
        | none => none
        | some items => parseExtraItems items
    match textPart, extraPart with
    | some a, some b => some (a ++ b)
    | _, _ => none
  | _ => some ""

/-! ## server.py — address resolver -/

/-- What the network environment says about a host string: it parses or
resolves to a public address, to a private/loopback/link-local/reserved/
multicast address, or it cannot be resolved at all.  This models
`ipaddress.ip_address` plus `socket.gethostbyname` in `is_private_ip`. -/
inductive HostClass where
  | publicAddr
  | privateAddr
  | unresolvable
  deriving Repr, DecidableEq

/-- `is_private_ip` (server.py lines 9-38): classify the host via the
environment; an unresolvable host raises `ValueError` (modelled as
`Except.error` with the message). -/
def is_private_ip (env : String → HostClass) (hostname : String) : Except String Bool :=
  match env hostname with
  | .unresolvable => .error ("Cannot resolve hostname: " ++ hostname)
  | .privateAddr => .ok true
  | .publicAddr => .ok false

/-- The resolver failure taxonomy.  Python raises `ValueError` with a
message in every case; the constructor records which raise site fired. -/
inductive ResolveError where
  | invalidPort (msg : String)
  | blockedPort (msg : String)
  | unresolvableHost (msg : String)
  | privateAddress (msg : String)
  deriving Repr, DecidableEq

/-- The fixed denylist of well-known service ports (server.py lines 58-70). -/
def blocked_ports : List Int :=
  [20, 21, 22, 23, 25, 80, 443, 110, 143, 3306, 5432, 6379, 27017]

/-- `validate_server_address` (server.py lines 41-77): port range check,
port denylist check, then the private-address check. -/
def validate_server_address (env : String → HostClass) (hostname : String)
    (port : Int) : Except ResolveError Unit :=
  if ¬(1 ≤ port ∧ port ≤ 65535) then
    .error (.invalidPort ("Port must be between 1 and 65535, got " ++ toString port))
  else if blocked_ports.contains port then
    .error (.blockedPort ("Port " ++ toString port ++ " is not allowed for security reasons"))
  else
    match is_private_ip env hostname with
    | .error msg => .error (.unresolvableHost msg)
    | .ok true => .error (.privateAddress "Access to private/internal IP addresses is not allowed")
    | .ok false => .ok ()

/-- Digit parsing for Python `int(s)`: decimal digits with single
underscores allowed between digits.  The boolean tracks whether the
previous character was a digit. -/
def pyDigits : List Char → Bool → Nat → Option Nat
  | [], lastDigit, acc => if lastDigit then some acc else none
  | c :: rest, lastDigit, acc =>
    if c.isDigit then pyDigits rest true (acc * 10 + (c.toNat - 48))
    else if c = '_' then
      if lastDigit then pyDigits rest false acc else none
    else none

/-- Python whitespace stripped by `int()` (ASCII subset). -/
def isPySpace (c : Char) : Bool :=
  c = ' ' || c = '\t' || c = '\n' || c = '\r' || c = '\x0b' || c = '\x0c'

/-- Python `int(s)` for decimal strings: surrounding whitespace, one
optional sign, then digits; `none` models `ValueError`. -/
def pyInt (s : String) : Option Int :=
  let cs := ((s.data.dropWhile isPySpace).reverse.dropWhile isPySpace).reverse
  match cs with
  | '+' :: rest => (pyDigits rest false 0).map (fun n => (n : Int))
  | '-' :: rest => (pyDigits rest false 0).map (fun n => -(n : Int))
  | rest => (pyDigits rest false 0).map (fun n => (n : Int))

/-- Split a character list at its last colon: `some (before, after)` when a
colon occurs, preferring the rightmost one. -/
def splitLast : List Char → Option (List Char × List Char)
  | [] => none
  | c :: rest =>
    match splitLast rest with
    | some hp => some (c :: hp.1, hp.2)
    | none => if c = ':' then some ([], rest) else none

/-- `ip.rsplit(":", 1)` when a colon is present. -/
def rsplitColon (s : String) : Option (String × String) :=
  (splitLast s.data).map (fun hp => (String.mk hp.1, String.mk hp.2))

/-- `parse_server_address` (server.py lines 80-106): split `host:port` on
the last colon (default port 25565), parse the port, then validate. -/
def parse_server_address (env : String → HostClass) (ip : String) :
    Except ResolveError (String × Int) := do
  let hp ← match rsplitColon ip with
    | some hp =>
      match pyInt hp.2 with
      | some port => Except.ok (hp.1, port)
      | none => Except.error (ResolveError.invalidPort ("Invalid port: " ++ hp.2))
    | none => Except.ok (ip, 25565)
  match validate_server_address env hp.1 hp.2 with
  | .ok _ => return hp
  | .error e => Except.error e

/-! ## server.py — status fetching -/

/-- Exceptions a `JavaServer.status()` call may raise, all caught by
`fetch_server_status` (server.py line 125). -/
inductive NetError where
  | timeout
  | connectionRefused
  | osError
  deriving Repr, DecidableEq

/-- The relevant shape of an mcstatus `JavaStatusResponse`: the raw
description, the version name (when a version object is present), the
player counts (when a players object is present) and the optional icon. -/
structure Status where
  description : Json
  version : Option String
  players : Option (Nat × Nat)
  icon : Option String
  deriving Repr

/-- `fetch_server_status` (server.py lines 109-126): parse and validate the
address, then query the server; a resolver `ValueError` or any
timeout/connection/OS error is caught and yields `None`. -/
def fetch_server_status (env : String → HostClass)
    (net : String → Int → Except NetError Status) (ip : String) : Option Status :=
  match parse_server_address env ip with
  | .error _ => none
  | .ok hp =>
    match net hp.1 hp.2 with
    | .ok st => some st
    | .error _ => none

/-- The dictionary returned by `get_server_info`. -/
structure ServerInfo where
  online : Bool
  motd : String
  server_name : String
  players_online : Nat
  players_max : Nat
  version : String
  favicon : Option String
  deriving Repr, DecidableEq

/-- The synthetic snapshot for an offline (or failed) fetch
(server.py lines 147-155). -/
def offlineServerInfo (ip : String) : ServerInfo :=
  { online := false
    motd := "Server Offline"
    server_name := ip
    players_online := 0
    players_max := 0
    version := "Unknown"
    favicon := none }

/-- The `extra` join of `get_server_info` (lines 180-184):
`str(item.get("text", ""))` for dict entries, `str(item)` otherwise. -/
def joinExtraItems (items : List Json) : String :=
  String.join (items.map (fun item =>
    match item with
    | .obj g => pyStr ((getField g "text").getD (Json.str ""))
    | other => pyStr other))

/-- MOTD text extraction of `get_server_info` (lines 157-184) over a `Json`
description: a plain string is the text; a dict contributes `str` of its
`text` field and the joined `extra` entries (`none` models the uncaught
`TypeError` when `extra` is not iterable); any other value leaves the text
empty.  The `hasattr(description, "text")` object branch (lines 164-173)
concerns mcstatus objects, which carry the same text/extra data as the dict
branch and are modelled by it. -/
def extract_motd (description : Json) : Option String :=
  match description with
  | .str s => some s
  | .obj fs =>
    let t := match getField fs "text" with
      | some tj => pyStr tj
      | none => ""
    match getField fs "extra" with
    | none => some t
    | some e =>
      match iterJson e with
      | none => none
      | some items => some (t ++ joinExtraItems items)
  | _ => some ""

/-- `get_server_info` (server.py lines 129-201): an absent status yields the
offline snapshot; otherwise the MOTD text is extracted (falling back to
`str(description)` and then `"No MOTD"`), and the remaining fields are
copied out of the status.  `none` models an uncaught exception. -/
def get_server_info (env : String → HostClass)
    (net : String → Int → Except NetError Status) (ip : String) : Option ServerInfo :=
  match fetch_server_status env net ip with
  | none => some (offlineServerInfo ip)
  | some st =>
    match extract_motd st.description with
    | none => none
    | some m0 =>
      let motd_text :=
        if m0 = "" then
          if truthy st.description then pyStr st.description else "No MOTD"
        else m0
      some
        { online := true
          motd := if motd_text = "" then "No MOTD" else motd_text
          server_name := match st.version with | some vn => vn | none => ip
          players_online := match st.players with | some p => p.1 | none => 0
          players_max := match st.players with | some p => p.2 | none => 0
          version := match st.version with | some vn => vn | none => "Unknown"
          favicon := st.icon }

/-! ## cache.py — bounded TTL cache with LRU eviction -/

/-- Modelled from the spec: `ThreadSafeTTLCache` (cache.py lines 7-53)
delegates its store to `cachetools.TTLCache`, an external dependency whose
implementation is not part of this repository.  The model gives the
sequential semantics of the wrapped cache described by the spec (bounded
size, 30-second time-to-live, least-recently-used eviction on overflow),
with the monotonic clock passed explicitly.  Entries are kept in
least-recently-used-first order and record their absolute expiry time
(insertion time + ttl).  A lookup refreshes recency, an entry is expired
once `now` reaches its expiry time, and `set` purges expired entries
before inserting and evicts from the least-recently-used end on
overflow. -/
structure ThreadSafeTTLCache (α : Type) where
  maxsize : Nat
  ttl : Nat
  entries : List (String × α × Nat)

/-- Drop the entries whose expiry time has been reached. -/
def expireEntries {α : Type} (now : Nat) (es : List (String × α × Nat)) :
    List (String × α × Nat) :=
  es.filter (fun e => decide (now < e.2.2))

/-- `get` (cache.py lines 21-32): `None` for a missing or expired key;
a hit moves the entry to the most-recently-used end. -/
def ThreadSafeTTLCache.get {α : Type} (c : ThreadSafeTTLCache α) (now : Nat)
    (k : String) : Option α × ThreadSafeTTLCache α :=
  match c.entries.find? (fun e => e.1 == k) with
  | none => (none, c)
  | some e =>
    if now < e.2.2 then
      (some e.2.1, { c with entries := c.entries.filter (fun x => !(x.1 == k)) ++ [e] })
    else (none, c)

/-- `set` (cache.py lines 34-43): purge expired entries, remove any old
entry for the key, evict from the least-recently-used end until the new
entry fits, and append it with a fresh expiry time. -/
def ThreadSafeTTLCache.set {α : Type} (c : ThreadSafeTTLCache α) (now : Nat)
    (k : String) (v : α) : ThreadSafeTTLCache α :=
  let es1 := expireEntries now c.entries
  let es2 := es1.filter (fun e => !(e.1 == k))
  let es3 := if es2.length + 1 ≤ c.maxsize then es2
             else es2.drop (es2.length + 1 - c.maxsize)
  { c with entries := es3 ++ [(k, v, now + c.ttl)] }

/-- `clear` (cache.py lines 45-48). -/
def ThreadSafeTTLCache.clear {α : Type} (c : ThreadSafeTTLCache α) :
    ThreadSafeTTLCache α :=
  { c with entries := [] }

/-- `size` (cache.py lines 50-53): the number of unexpired entries. -/
def ThreadSafeTTLCache.size {α : Type} (c : ThreadSafeTTLCache α) (now : Nat) : Nat :=
  (expireEntries now c.entries).length

/-- Well-formedness: distinct keys, and no more entries than the capacity. -/
def ThreadSafeTTLCache.wf {α : Type} (c : ThreadSafeTTLCache α) : Prop :=
  (c.entries.map (fun e => e.1)).Nodup ∧ c.entries.length ≤ c.maxsize

/-- The process-wide cache instance (cache.py line 58, `_server_cache`):
capacity 1000, TTL 30 seconds, initially empty. -/
def server_cache : ThreadSafeTTLCache ServerInfo :=
  { maxsize := 1000, ttl := 30, entries := [] }

/-- A concrete one-entry cache state with the configured parameters, used
to instantiate the cache invariants. -/
def sampleCache : ThreadSafeTTLCache Nat :=
  { maxsize := 1000, ttl := 30, entries := [("a", 1, 40)] }

/-- Observable cache/fetch activity of one lookup. -/
inductive CacheEvent where
  | cacheGet (key : String)
  | fetchCall (key : String)
  | cacheSet (key : String)
  deriving Repr, DecidableEq

/-- `get_cached_server_info` (cache.py lines 61-78): an unconditional cache
`get`; on a hit the cached value is returned, otherwise the fetch function
runs and its result is stored and returned.  The event list records the
cache and fetch activity; a fetch exception (`none`) propagates before the
`set`. -/
def get_cached_server_info {α : Type} (cache : ThreadSafeTTLCache α) (now : Nat)
    (ip : String) (fetch : String → Option α) :
    Option α × ThreadSafeTTLCache α × List CacheEvent :=
  let r := cache.get now ip
  match r.1 with
  | some info => (some info, r.2, [CacheEvent.cacheGet ip])
  | none =>
    match fetch ip with
    | none => (none, r.2, [CacheEvent.cacheGet ip, CacheEvent.fetchCall ip])
    | some info =>
      (some info, r.2.set now ip info,
       [CacheEvent.cacheGet ip, CacheEvent.fetchCall ip, CacheEvent.cacheSet ip])

/-! ## Helper lemmas -/

@[simp]
theorem markersOf_nil : markersOf [] = [] := rfl

@[simp]
theorem markersOf_cons_lit (a : List Char) (ts : List MotdTok) :
    markersOf (MotdTok.lit a :: ts) = markersOf ts := rfl

@[simp]
theorem markersOf_cons_marker (c : Char) (ts : List MotdTok) :
    markersOf (MotdTok.marker c :: ts) = c :: markersOf ts := rfl

theorem toLower_ne_of_code_key {c : Char} (hc : isCodeChar c = false) :
    ∀ x : Char, isCodeKey x = true → c.toLower ≠ x := by
  intro x hx h
  rw [isCodeChar, h, hx] at hc
  cases hc

theorem lookupCode_color_none {c : Char} (hc : isCodeChar c = false) :
    lookupCode COLOR_CODES c.toLower = none := by
  have key := toLower_ne_of_code_key hc
  have hfind : COLOR_CODES.find? (fun p => p.1 == c.toLower) = none := by
    rw [List.find?_eq_none]
    intro p hp
    fin_cases hp <;> exact fun h => absurd (eq_of_beq h).symm (key _ (by decide))
  simp [lookupCode, hfind]

theorem lookupCode_format_none {c : Char} (hc : isCodeChar c = false) :
    lookupCode FORMAT_CODES c.toLower = none := by
  have key := toLower_ne_of_code_key hc
  have hfind : FORMAT_CODES.find? (fun p => p.1 == c.toLower) = none := by
    rw [List.find?_eq_none]
    intro p hp
    fin_cases hp <;> exact fun h => absurd (eq_of_beq h).symm (key _ (by decide))
  simp [lookupCode, hfind]

theorem color_lookup_facts {code : Char} {col : String}
    (h : lookupCode COLOR_CODES code = some col) :
    col ∈ colorValues ∧ code ≠ 'r' := by
  rw [lookupCode, Option.map_eq_some'] at h
  obtain ⟨p, hfind, hp2⟩ := h
  have hmem := List.mem_of_find?_eq_some hfind
  have hpred := List.find?_some hfind
  subst hp2
  fin_cases hmem <;> (obtain rfl := eq_of_beq hpred; exact ⟨by decide, by decide⟩)

theorem format_lookup_facts {code : Char} {fc : String}
    (h : lookupCode FORMAT_CODES code = some fc) :
    fc ∉ colorValues ∧ lookupCode COLOR_CODES code = none := by
  rw [lookupCode, Option.map_eq_some'] at h
  obtain ⟨p, hfind, hp2⟩ := h
  have hmem := List.mem_of_find?_eq_some hfind
  have hpred := List.find?_some hfind
  subst hp2
  fin_cases hmem <;> (obtain rfl := eq_of_beq hpred; exact ⟨by decide, rfl⟩)

theorem marker_shape {p : List Char} (h : p.head? = some '§' ∧ p.length = 2) :
    ∃ c, p = ['§', c] := by
  obtain ⟨h1, h2⟩ := h
  cases p with
  | nil => simp at h1
  | cons a t =>
    cases t with
    | nil => simp at h2
    | cons b r =>
      cases r with
      | nil =>
        simp at h1
        exact ⟨b, by rw [h1]⟩
      | cons x xs =>
        simp [List.length_cons] at h2

theorem loopBody_nil_part (classes : List String) :
    loopBody classes [] = ([], classes) := rfl

theorem loopBody_marker_reset (classes : List String) {c : Char}
    (hr : c.toLower = 'r') :
    loopBody classes ['§', c] = ([resetCodeSpan], []) := by
  simp [loopBody, hr]

theorem loopBody_marker_color (classes : List String) {c : Char} {col : String}
    (hcol : lookupCode COLOR_CODES c.toLower = some col) :
    loopBody classes ['§', c] =
      ([markerSpan c], classes.filter (fun x => !(colorValues.contains x)) ++ [col]) := by
  have hr : c.toLower ≠ 'r' := (color_lookup_facts hcol).2
  simp [loopBody, hr, hcol]

theorem loopBody_marker_format (classes : List String) {c : Char} {fc : String}
    (hfmt : lookupCode FORMAT_CODES c.toLower = some fc) (hr : c.toLower ≠ 'r') :
    loopBody classes ['§', c] =
      ([markerSpan c], if classes.contains fc then classes else classes ++ [fc]) := by
  have hcol := (format_lookup_facts hfmt).2
  simp [loopBody, hr, hcol, hfmt]

theorem loopBody_marker_unknown (classes : List String) {c : Char}
    (hc : isCodeChar c = false) :
    loopBody classes ['§', c] = ([], classes) := by
  have key := toLower_ne_of_code_key hc
  have hr : c.toLower ≠ 'r' := key 'r' (by decide)
  have h1 := lookupCode_color_none hc
  have h2 := lookupCode_format_none hc
  simp [loopBody, hr, h1, h2]

theorem loopBody_lit (classes : List String) {part : List Char} (h0 : part ≠ [])
    (h1 : ¬(part.head? = some '§' ∧ part.length = 2)) :
    loopBody classes part = ([litSpan part classes], classes) := by
  simp [loopBody, h0, h1]

theorem colorCount_append (a b : List String) :
    colorCount (a ++ b) = colorCount a + colorCount b := by
  simp [colorCount, List.filter_append]

theorem colorCount_step (cs : List String) (p : List Char)
    (h : colorCount cs ≤ 1) : colorCount (loopBody cs p).2 ≤ 1 := by
  by_cases h0 : p = []
  · subst h0
    simpa [loopBody_nil_part] using h
  by_cases h1 : p.head? = some '§' ∧ p.length = 2
  · obtain ⟨c, rfl⟩ := marker_shape h1
    by_cases hr : c.toLower = 'r'
    · simp [loopBody_marker_reset cs hr, colorCount]
    · cases hcol : lookupCode COLOR_CODES c.toLower with
      | some col =>
        rw [loopBody_marker_color cs hcol]
        have hone : colorCount (cs.filter (fun x => !(colorValues.contains x))) = 0 := by
          simp [colorCount, List.filter_filter]
        rw [colorCount_append, hone]
        simpa [colorCount] using
          List.length_filter_le (fun x => colorValues.contains x) [col]
      | none =>
        cases hfmt : lookupCode FORMAT_CODES c.toLower with
        | some fc =>
          rw [loopBody_marker_format cs hfmt hr]
          by_cases hcont : cs.contains fc = true
          · rw [if_pos hcont]
            exact h
          · have hz : colorCount [fc] = 0 := by
              simp [colorCount, (format_lookup_facts hfmt).1]
            rw [if_neg hcont, colorCount_append, hz]
            simpa using h
        | none =>
          have hnone : loopBody cs ['§', c] = ([], cs) := by
            simp [loopBody, hr, hcol, hfmt]
          simpa [hnone] using h
  · simpa [loopBody_lit cs h0 h1] using h

theorem colorCount_classesAfter (parts : List (List Char)) (classes : List String)
    (h : colorCount classes ≤ 1) : colorCount (classesAfter parts classes) ≤ 1 := by
  induction parts generalizing classes with
  | nil => simpa [classesAfter] using h
  | cons p rest ih =>
    rw [classesAfter, List.foldl_cons]
    exact ih _ (colorCount_step classes p h)

theorem tokenize_marker_code : ∀ (l : List Char) (c : Char),
    MotdTok.marker c ∈ tokenize l → isCodeChar c = true
  | [], c, h => by simp [tokenize] at h
  | [c0], c, h => by simp [tokenize] at h
  | c1 :: c2 :: rest, c, h => by
    rw [tokenize] at h
    by_cases hcond : c1 = '§' ∧ isCodeChar c2
    · rw [if_pos hcond] at h
      rcases List.mem_cons.mp h with heq | hmem
      · injection heq with h3
        rw [h3]
        exact hcond.2
      · exact tokenize_marker_code rest c hmem
    · rw [if_neg hcond] at h
      rcases List.mem_cons.mp h with heq | hmem
      · exact MotdTok.noConfusion heq
      · exact tokenize_marker_code (c2 :: rest) c hmem

theorem tokenize_nil : tokenize [] = [] := rfl

theorem tokenize_singleton (c : Char) : tokenize [c] = [MotdTok.lit [c]] := rfl

theorem tokenize_cons₂ (c1 c2 : Char) (rest : List Char) :
    tokenize (c1 :: c2 :: rest) =
      if c1 = '§' ∧ isCodeChar c2 then MotdTok.marker c2 :: tokenize rest
      else MotdTok.lit [c1] :: tokenize (c2 :: rest) := rfl

theorem replaceChar_append (old : Char) (new : List Char) (a b : List Char) :
    replaceChar old new (a ++ b) =
      replaceChar old new a ++ replaceChar old new b := by
  induction a with
  | nil => rfl
  | cons c cs ih => simp [replaceChar, ih, List.append_assoc]

theorem escapeChars_append (a b : List Char) :
    escapeChars (a ++ b) = escapeChars a ++ escapeChars b := by
  simp [escapeChars, replaceChar_append]

theorem escapeChars_singleton (c : Char) : escapeChars [c] = escMap c := by
  by_cases h1 : c = '&'
  · subst h1; rfl
  by_cases h2 : c = '<'
  · subst h2; rfl
  by_cases h3 : c = '>'
  · subst h3; rfl
  by_cases h4 : c = '"'
  · subst h4; rfl
  · simp [escapeChars, replaceChar, escMap, h1, h2, h3, h4]

theorem escapeChars_cons (c : Char) (l : List Char) :
    escapeChars (c :: l) = escMap c ++ escapeChars l := by
  rw [show (c :: l) = [c] ++ l from rfl, escapeChars_append, escapeChars_singleton]

theorem escMap_cases (c : Char) : escMap c = [c] ∨ (∀ x ∈ escMap c, x ≠ '§') := by
  by_cases h1 : c = '&'
  · subst h1; right; decide
  by_cases h2 : c = '<'
  · subst h2; right; decide
  by_cases h3 : c = '>'
  · subst h3; right; decide
  by_cases h4 : c = '"'
  · subst h4; right; decide
  · left; simp [escMap, h1, h2, h3, h4]

theorem escMap_of_code {c : Char} (h : isCodeChar c = true) : escMap c = [c] := by
  have h1 : c ≠ '&' := by rintro rfl; exact absurd h (by decide)
  have h2 : c ≠ '<' := by rintro rfl; exact absurd h (by decide)
  have h3 : c ≠ '>' := by rintro rfl; exact absurd h (by decide)
  have h4 : c ≠ '"' := by rintro rfl; exact absurd h (by decide)
  simp [escMap, h1, h2, h3, h4]

theorem markersOf_tokenize_append (l X : List Char) (h : ∀ c ∈ l, c ≠ '§') :
    markersOf (tokenize (l ++ X)) = markersOf (tokenize X) := by
  induction l with
  | nil => rfl
  | cons c cs ih =>
    have hc : c ≠ '§' := h c (List.mem_cons_self c cs)
    have hcs : ∀ x ∈ cs, x ≠ '§' := fun x hx => h x (List.mem_cons_of_mem _ hx)
    show markersOf (tokenize (c :: (cs ++ X))) = markersOf (tokenize X)
    cases hcx : cs ++ X with
    | nil =>
      obtain ⟨rfl, rfl⟩ := List.append_eq_nil.mp hcx
      rfl
    | cons h2 t2 =>
      rw [tokenize_cons₂, if_neg (fun hand => hc hand.1), markersOf_cons_lit, ← hcx]
      exact ih hcs

theorem markers_escape : ∀ l : List Char,
    markersOf (tokenize (escapeChars l)) = markersOf (tokenize l)
  | [] => rfl
  | [c] => by
    rcases escMap_cases c with heq | hno
    · rw [escapeChars_singleton c, heq]
    · rw [escapeChars_singleton c]
      have happ := markersOf_tokenize_append (escMap c) [] hno
      simpa using happ
  | c1 :: c2 :: rest => by
    rw [escapeChars_cons]
    by_cases hm : c1 = '§' ∧ isCodeChar c2
    · obtain ⟨rfl, hcode⟩ := hm
      rw [show escMap '§' = ['§'] from rfl, escapeChars_cons, escMap_of_code hcode]
      have hRm : markersOf (tokenize ('§' :: c2 :: rest)) =
          c2 :: markersOf (tokenize rest) := by
        rw [tokenize_cons₂, if_pos ⟨rfl, hcode⟩, markersOf_cons_marker]
      rw [hRm]
      show markersOf (tokenize ('§' :: c2 :: escapeChars rest)) = _
      rw [tokenize_cons₂, if_pos ⟨rfl, hcode⟩, markersOf_cons_marker,
        markers_escape rest]
    · have hR : markersOf (tokenize (c1 :: c2 :: rest)) =
          markersOf (tokenize (c2 :: rest)) := by
        rw [tokenize_cons₂, if_neg hm, markersOf_cons_lit]
      rw [hR]
      by_cases hS : c1 = '§'
      · subst hS
        have hnc : isCodeChar c2 = false := by
          rcases Bool.eq_false_or_eq_true (isCodeChar c2) with ht | hf
          · exact absurd ⟨rfl, ht⟩ hm
          · exact hf
        rw [show escMap '§' = ['§'] from rfl]
        by_cases h4b : c2 = '&' ∨ c2 = '<' ∨ c2 = '>' ∨ c2 = '"'
        · obtain ⟨T, hT⟩ : ∃ T, escapeChars (c2 :: rest) = '&' :: T := by
            rcases h4b with rfl | rfl | rfl | rfl <;>
              exact ⟨_, by rw [escapeChars_cons]; rfl⟩
          rw [hT]
          show markersOf (tokenize ('§' :: '&' :: T)) = _
          rw [tokenize_cons₂, if_neg (by intro hand; exact absurd hand.2 (by decide)),
            markersOf_cons_lit, ← hT, markers_escape (c2 :: rest)]
        · push_neg at h4b
          have h6 : escMap c2 = [c2] := by
            simp [escMap, h4b.1, h4b.2.1, h4b.2.2.1, h4b.2.2.2]
          rw [escapeChars_cons, h6]
          show markersOf (tokenize ('§' :: c2 :: escapeChars rest)) = _
          rw [tokenize_cons₂, if_neg (fun hand => absurd hand.2 (by simp [hnc])),
            markersOf_cons_lit,
            show (c2 :: escapeChars rest) = escapeChars (c2 :: rest) from by
              rw [escapeChars_cons, h6]; rfl,
            markers_escape (c2 :: rest)]
      · rcases escMap_cases c1 with heq | hno
        · rw [heq]
          have happ := markersOf_tokenize_append [c1] (escapeChars (c2 :: rest))
            (by intro x hx; rw [List.mem_singleton] at hx; subst hx; exact hS)
          show markersOf (tokenize (c1 :: escapeChars (c2 :: rest))) =
            markersOf (tokenize (c2 :: rest))
          rw [show (c1 :: escapeChars (c2 :: rest)) =
            [c1] ++ escapeChars (c2 :: rest) from rfl, happ, markers_escape (c2 :: rest)]
        · rw [markersOf_tokenize_append (escMap c1) (escapeChars (c2 :: rest)) hno,
            markers_escape (c2 :: rest)]

theorem splitLast_eq_none (l : List Char) (h : ∀ c ∈ l, c ≠ ':') :
    splitLast l = none := by
  induction l with
  | nil => rfl
  | cons c cs ih =>
    have hc : c ≠ ':' := h c (List.mem_cons_self c cs)
    have hrest := ih (fun x hx => h x (List.mem_cons_of_mem _ hx))
    simp [splitLast, hrest, hc]

theorem splitLast_append (hs ps : List Char) (h : ':' ∉ ps) :
    splitLast (hs ++ ':' :: ps) = some (hs, ps) := by
  induction hs with
  | nil =>
    have hnone : splitLast ps = none :=
      splitLast_eq_none ps (fun c hc => by rintro rfl; exact h hc)
    simp [splitLast, hnone]
  | cons c cs ih => simp [splitLast, ih]

theorem rsplitColon_append (host portStr : String) (h : ':' ∉ portStr.data) :
    rsplitColon (host ++ ":" ++ portStr) = some (host, portStr) := by
  unfold rsplitColon
  rw [String.data_append, String.data_append,
    show (":" : String).data = [':'] from rfl, List.append_assoc,
    List.singleton_append, splitLast_append host.data portStr.data h]
  rfl

theorem cache_set_length {α : Type} (c : ThreadSafeTTLCache α) (now : Nat)
    (k : String) (v : α) (hmax : 1 ≤ c.maxsize) :
    (c.set now k v).entries.length ≤ c.maxsize := by
  have hgen : ∀ es2 : List (String × α × Nat),
      ((if es2.length + 1 ≤ c.maxsize then es2
        else es2.drop (es2.length + 1 - c.maxsize)) ++ [(k, v, now + c.ttl)]).length
        ≤ c.maxsize := by
    intro es2
    by_cases hle : es2.length + 1 ≤ c.maxsize
    · simp [hle]
    · simp only [hle, if_false, List.length_append, List.length_drop,
        List.length_cons, List.length_nil]
      omega
  exact hgen _

theorem mem_evict_filter {α : Type} (es : List (String × α × Nat)) (k : String)
    (m : Nat) :
    ∀ x ∈ (if (es.filter (fun e => !(e.1 == k))).length + 1 ≤ m
           then es.filter (fun e => !(e.1 == k))
           else (es.filter (fun e => !(e.1 == k))).drop
             ((es.filter (fun e => !(e.1 == k))).length + 1 - m)),
      (x.1 == k) = false := by
  intro x hx
  have hx2 : x ∈ es.filter (fun e => !(e.1 == k)) := by
    revert hx
    split
    · exact id
    · exact fun hx => List.drop_subset _ _ hx
  simpa using (List.mem_filter.mp hx2).2

theorem evict_sublist {α : Type} (es : List (String × α × Nat)) (k : String)
    (m : Nat) :
    (if (es.filter (fun e => !(e.1 == k))).length + 1 ≤ m
     then es.filter (fun e => !(e.1 == k))
     else (es.filter (fun e => !(e.1 == k))).drop
       ((es.filter (fun e => !(e.1 == k))).length + 1 - m)).Sublist es := by
  split
  · exact List.filter_sublist es
  · exact (List.drop_sublist _ _).trans (List.filter_sublist es)

theorem cache_set_nodup {α : Type} (c : ThreadSafeTTLCache α) (now : Nat)
    (k : String) (v : α) (hnd : (c.entries.map (fun e => e.1)).Nodup) :
    ((c.set now k v).entries.map (fun e => e.1)).Nodup := by
  have hgen : ∀ es3 : List (String × α × Nat), es3.Sublist c.entries →
      (∀ x ∈ es3, (x.1 == k) = false) →
      ((es3 ++ [(k, v, now + c.ttl)]).map (fun e => e.1)).Nodup := by
    intro es3 hsub hne
    rw [List.map_append, List.nodup_append]
    refine ⟨List.Nodup.sublist (hsub.map _) hnd, by simp, ?_⟩
    intro a ha
    obtain ⟨x, hx, rfl⟩ := List.mem_map.mp ha
    simp only [List.map_cons, List.map_nil, List.mem_singleton]
    simpa using hne x hx
  have hesub : (expireEntries now c.entries).Sublist c.entries :=
    List.filter_sublist c.entries
  exact hgen _
    ((evict_sublist (expireEntries now c.entries) k c.maxsize).trans hesub)
    (mem_evict_filter (expireEntries now c.entries) k c.maxsize)

theorem cache_get_fresh {α : Type} (c : ThreadSafeTTLCache α) (now : Nat)
    (k : String) {w : α} (h : (c.get now k).1 = some w) :
    ∃ exp, (k, w, exp) ∈ c.entries ∧ now < exp := by
  cases hf : c.entries.find? (fun e => e.1 == k) with
  | none => simp [ThreadSafeTTLCache.get, hf] at h
  | some e =>
    obtain ⟨k1, w1, exp1⟩ := e
    have hk1 : k1 = k := by simpa using List.find?_some hf
    subst hk1
    by_cases ht : now < exp1
    · have hw : w1 = w := by simpa [ThreadSafeTTLCache.get, hf, ht] using h
      subst hw
      exact ⟨exp1, List.mem_of_find?_eq_some hf, ht⟩
    · simp [ThreadSafeTTLCache.get, hf, ht] at h

theorem cache_get_expired {α : Type} (c : ThreadSafeTTLCache α) (now : Nat)
    (k : String) {w : α} {exp : Nat}
    (hnd : (c.entries.map (fun e => e.1)).Nodup)
    (hmem : (k, w, exp) ∈ c.entries) (hexp : ¬ now < exp) :
    (c.get now k).1 = none := by
  cases hf : c.entries.find? (fun e => e.1 == k) with
  | none => simp [ThreadSafeTTLCache.get, hf]
  | some e =>
    obtain ⟨k1, w1, exp1⟩ := e
    have hk1 : k1 = k := by simpa using List.find?_some hf
    subst hk1
    have hmem1 := List.mem_of_find?_eq_some hf
    have heq := List.inj_on_of_nodup_map hnd hmem1 hmem rfl
    have hexp1 : exp1 = exp := by
      simpa using congrArg (fun t => t.2.2) heq
    subst hexp1
    simp [ThreadSafeTTLCache.get, hf, hexp]

theorem cache_get_after_set {α : Type} (c : ThreadSafeTTLCache α) (now : Nat)
    (k : String) (v : α) (httl : 0 < c.ttl) :
    ((c.set now k v).get now k).1 = some v := by
  have hfind : (c.set now k v).entries.find? (fun e => e.1 == k) =
      some (k, v, now + c.ttl) := by
    have hnone : (List.find? (fun e => e.1 == k)
        (if ((expireEntries now c.entries).filter (fun e => !(e.1 == k))).length + 1
            ≤ c.maxsize
         then (expireEntries now c.entries).filter (fun e => !(e.1 == k))
         else ((expireEntries now c.entries).filter (fun e => !(e.1 == k))).drop
           (((expireEntries now c.entries).filter (fun e => !(e.1 == k))).length + 1
             - c.maxsize))) = none :=
      List.find?_eq_none.mpr (fun x hx => by
        simp [mem_evict_filter (expireEntries now c.entries) k c.maxsize x hx])
    show (List.find? _ (_ ++ [(k, v, now + c.ttl)])) = _
    rw [List.find?_append, hnone, Option.none_or]
    simp
  have hlt : now < now + c.ttl := Nat.lt_add_of_pos_right httl
  simp [ThreadSafeTTLCache.get, hfind, hlt]

/-! ## Claim theorems -/

/-- C1 (code bug evidence): for the input `"example.com:22"`, whose port is
on the denylist, the resolver fails with `BlockedPort`; yet the lookup
performs a cache get, a fetch and a cache set, `fetch_server_status`
swallows the resolver error, and the lookup returns (and caches) a normal
offline snapshot instead of surfacing a client-input error — for every
network environment. -/
theorem C1_resolver_failure_converted_to_cached_result :
    ∀ (env : String → HostClass) (net : String → Int → Except NetError Status),
    parse_server_address env "example.com:22" =
      Except.error (ResolveError.blockedPort "Port 22 is not allowed for security reasons")
    ∧ fetch_server_status env net "example.com:22" = none
    ∧ get_cached_server_info server_cache 0 "example.com:22" (get_server_info env net) =
        (some (offlineServerInfo "example.com:22"),
         { maxsize := 1000, ttl := 30,
           entries := [("example.com:22", offlineServerInfo "example.com:22", 30)] },
         [CacheEvent.cacheGet "example.com:22", CacheEvent.fetchCall "example.com:22",
          CacheEvent.cacheSet "example.com:22"]) :=
  fun _ _ => ⟨rfl, rfl, rfl⟩

/-- C5 (counterexample): the input `"§z"` is a two-character sequence whose
second character is not a recognized format code; the parser drops it
entirely — the output is empty and the characters do not appear as literal
text, contrary to the claim. -/
theorem C5_counterexample :
    parse_motd "§z" = "" ∧ ¬("§z".data <:+: (parse_motd "§z").data) := by
  refine ⟨rfl, ?_⟩
  decide

/-- C6 (counterexample): literal runs are wrapped with the active classes in
discovery order, not canonical order, and a color set after styles appears
after them, not before: in `parse_motd "§o§lX"` the class list is
`mcformat mcformat-italic mcformat-bold` (italic first, discovery order),
and in `parse_motd "§lBold§4Red"` the run `Red` carries
`mcformat mcformat-bold mcformat-dark-red` (color last, not first). -/
theorem C6_counterexample :
    parse_motd "§o§lX" =
      "<span class=\"mcformat-code\">§o</span><span class=\"mcformat-code\">§l</span>"
        ++ "<span class=\"mcformat mcformat-italic mcformat-bold\">X</span>"
    ∧ ¬("mcformat mcformat-bold".data <:+: (parse_motd "§o§lX").data)
    ∧ parse_motd "§lBold§4Red" =
        "<span class=\"mcformat-code\">§l</span>"
          ++ "<span class=\"mcformat mcformat-bold\">Bold</span>"
          ++ "<span class=\"mcformat-code\">§4</span>"
          ++ "<span class=\"mcformat mcformat-bold mcformat-dark-red\">Red</span>"
    ∧ ¬("mcformat mcformat-dark-red".data <:+: (parse_motd "§lBold§4Red").data) := by
  set_option maxRecDepth 8000 in
  refine ⟨rfl, by decide, rfl, by decide⟩

/-- C5 (amended): a two-character sequence starting with the marker
character whose second character is not a recognized code is never treated
as a marker and never raises: the tokenizer only produces markers for code
characters; but such a sequence standing alone as a split part is silently
dropped (the marker-shaped branch matches no code and emits nothing), while
inside any other literal run it falls through to literal-text handling. -/
theorem C5_amended_unknown_markers :
    (∀ (l : List Char) (c : Char), MotdTok.marker c ∈ tokenize l → isCodeChar c = true)
    ∧ (∀ c : Char, isCodeChar c = false → ∀ classes : List String,
        loopBody classes ['§', c] = ([], classes))
    ∧ (∀ (part : List Char) (classes : List String), part ≠ [] →
        ¬(part.head? = some '§' ∧ part.length = 2) →
        loopBody classes part = ([litSpan part classes], classes)) :=
  ⟨tokenize_marker_code,
   fun _ hc classes => loopBody_marker_unknown classes hc,
   fun _ classes h0 h1 => loopBody_lit classes h0 h1⟩

/-- Witness for C5 (amended) at the unknown code `z`: the lone part `§z` is
dropped, and the longer literal run `a§zb` is wrapped as literal text. -/
theorem C5_amended_unknown_markers_witness :
    loopBody [] ['§', 'z'] = ([], [])
    ∧ loopBody [] "a§zb".data = ([litSpan "a§zb".data []], [])
    ∧ MotdTok.marker 'z' ∉ tokenize "a§zb".data :=
  ⟨C5_amended_unknown_markers.2.1 'z' (by decide) [],
   C5_amended_unknown_markers.2.2 "a§zb".data [] (by decide) (by decide),
   fun h => absurd (C5_amended_unknown_markers.1 "a§zb".data 'z' h) (by decide)⟩

/-- C6 (amended): a literal run is wrapped in an element whose class list is
`mcformat` followed by the active classes in the order they became active —
styles in discovery order, and a newly set color appended after the
surviving styles (color last, not first, and no canonical style order);
when no class is active the run is wrapped with the single default reset
class. -/
theorem C6_amended_class_order :
    (∀ (part : List Char) (classes : List String), part ≠ [] →
        ¬(part.head? = some '§' ∧ part.length = 2) → classes ≠ [] →
        (loopBody classes part).1 =
          ["<span class=\"" ++ String.intercalate " " ("mcformat" :: classes) ++ "\">"
            ++ String.mk part ++ "</span>"])
    ∧ (∀ part : List Char, part ≠ [] →
        ¬(part.head? = some '§' ∧ part.length = 2) →
        (loopBody [] part).1 =
          ["<span class=\"mcformat mcformat-reset\">" ++ String.mk part ++ "</span>"])
    ∧ (∀ (classes : List String) (c : Char) (fc : String),
        lookupCode FORMAT_CODES c.toLower = some fc → c.toLower ≠ 'r' →
        classes.contains fc = false →
        (loopBody classes ['§', c]).2 = classes ++ [fc])
    ∧ (∀ (classes : List String) (c : Char) (col : String),
        lookupCode COLOR_CODES c.toLower = some col →
        (loopBody classes ['§', c]).2 =
          classes.filter (fun x => !(colorValues.contains x)) ++ [col]
        ∧ ((loopBody classes ['§', c]).2).getLast? = some col) := by
  refine ⟨fun part classes h0 h1 hne => ?_, fun part h0 h1 => ?_,
    fun classes c fc hfmt hr hcont => ?_, fun classes c col hcol => ⟨?_, ?_⟩⟩
  · rw [loopBody_lit classes h0 h1]
    simp [litSpan, hne]
  · rw [loopBody_lit [] h0 h1]
    simp [litSpan]
  · rw [loopBody_marker_format classes hfmt hr,
      if_neg (by rw [hcont]; exact Bool.false_ne_true)]
  · rw [loopBody_marker_color classes hcol]
  · rw [loopBody_marker_color classes hcol]
    simp

/-- Witness for C6 (amended): a literal under an active bold class, the
default wrap, the style `o` appended after `bold` (discovery order), and
the color `4` appended after the surviving bold style. -/
theorem C6_amended_class_order_witness :
    (loopBody ["mcformat-bold"] "X".data).1 =
      ["<span class=\"" ++ String.intercalate " " ("mcformat" :: ["mcformat-bold"]) ++ "\">"
        ++ String.mk "X".data ++ "</span>"]
    ∧ (loopBody [] "X".data).1 =
        ["<span class=\"mcformat mcformat-reset\">" ++ String.mk "X".data ++ "</span>"]
    ∧ (loopBody ["mcformat-bold"] ['§', 'o']).2 = ["mcformat-bold"] ++ ["mcformat-italic"]
    ∧ (loopBody ["mcformat-bold"] ['§', '4']).2 =
        ["mcformat-bold"].filter (fun x => !(colorValues.contains x)) ++ ["mcformat-dark-red"]
    ∧ ((loopBody ["mcformat-bold"] ['§', '4']).2).getLast? = some "mcformat-dark-red" :=
  ⟨C6_amended_class_order.1 "X".data ["mcformat-bold"] (by decide) (by decide) (by decide),
   C6_amended_class_order.2.1 "X".data (by decide) (by decide),
   C6_amended_class_order.2.2.1 ["mcformat-bold"] 'o' "mcformat-italic"
     (by decide) (by decide) (by decide),
   (C6_amended_class_order.2.2.2 ["mcformat-bold"] '4' "mcformat-dark-red" (by decide)).1,
   (C6_amended_class_order.2.2.2 ["mcformat-bold"] '4' "mcformat-dark-red" (by decide)).2⟩

/-- C7: the parser state carries at most one active color class at every
point (the count is preserved by every processing step starting from any
state with at most one); a color marker drops the active color, leaves the
styles untouched in order and appends the new color; a reset marker clears
all classes while still emitting the explicit reset element; and in
`parse_motd "§lBold§4Red"` the run `Red` carries both the bold style class
and the dark-red color class. -/
theorem C7_color_state :
    (∀ (parts : List (List Char)) (classes : List String),
        colorCount classes ≤ 1 → colorCount (classesAfter parts classes) ≤ 1)
    ∧ (∀ (classes : List String) (c : Char) (col : String),
        lookupCode COLOR_CODES c.toLower = some col →
        loopBody classes ['§', c] =
          ([markerSpan c], classes.filter (fun x => !(colorValues.contains x)) ++ [col]))
    ∧ (∀ classes : List String, loopBody classes ['§', 'r'] = ([resetCodeSpan], []))
    ∧ ("<span class=\"mcformat mcformat-bold mcformat-dark-red\">Red</span>").data <:+:
        (parse_motd "§lBold§4Red").data := by
  refine ⟨colorCount_classesAfter, fun classes c col hcol => ?_, fun classes => ?_, ?_⟩
  · exact loopBody_marker_color classes hcol
  · exact loopBody_marker_reset classes (by decide)
  · set_option maxRecDepth 8000 in decide

/-- Witness for C7: the invariant instantiated on a concrete token
sequence, and the color-change equation at a concrete state. -/
theorem C7_color_state_witness :
    colorCount (classesAfter [['§', 'l'], ['§', '4'], "Red".data] []) ≤ 1
    ∧ loopBody ["mcformat-bold", "mcformat-gold"] ['§', '4'] =
        ([markerSpan '4'],
         ["mcformat-bold", "mcformat-gold"].filter (fun x => !(colorValues.contains x))
           ++ ["mcformat-dark-red"]) :=
  ⟨C7_color_state.1 [['§', 'l'], ['§', '4'], "Red".data] [] (by decide),
   C7_color_state.2.1 ["mcformat-bold", "mcformat-gold"] '4' "mcformat-dark-red" (by decide)⟩

/-- C8: re-issuing a style marker whose class is already active leaves the
state unchanged while still emitting the marker element; processing a style
marker twice gives the same state as processing it once; and
`parse_motd "§l§lBold"` emits two marker elements and wraps `Bold` with the
bold class present exactly once. -/
theorem C8_style_idempotent :
    (∀ (classes : List String) (c : Char) (fc : String),
        lookupCode FORMAT_CODES c.toLower = some fc → c.toLower ≠ 'r' →
        classes.contains fc = true →
        loopBody classes ['§', c] = ([markerSpan c], classes))
    ∧ (∀ (classes : List String) (c : Char) (fc : String),
        lookupCode FORMAT_CODES c.toLower = some fc → c.toLower ≠ 'r' →
        (loopBody ((loopBody classes ['§', c]).2) ['§', c]).2 = (loopBody classes ['§', c]).2)
    ∧ classesAfter (partsOf (escapeChars "§l§lBold".data)) [] = ["mcformat-bold"]
    ∧ parse_motd "§l§lBold" =
        "<span class=\"mcformat-code\">§l</span><span class=\"mcformat-code\">§l</span>"
          ++ "<span class=\"mcformat mcformat-bold\">Bold</span>" := by
  have hstep : ∀ (classes : List String) (c : Char) (fc : String),
      lookupCode FORMAT_CODES c.toLower = some fc → c.toLower ≠ 'r' →
      classes.contains fc = true →
      loopBody classes ['§', c] = ([markerSpan c], classes) := by
    intro classes c fc hfmt hr hcont
    rw [loopBody_marker_format classes hfmt hr, if_pos hcont]
  refine ⟨hstep, fun classes c fc hfmt hr => ?_, by decide, ?_⟩
  · by_cases hcont : classes.contains fc = true
    · have h1 := hstep classes c fc hfmt hr hcont
      rw [h1]
      show (loopBody classes ['§', c]).2 = classes
      rw [h1]
    · have h1 : (loopBody classes ['§', c]).2 = classes ++ [fc] := by
        rw [loopBody_marker_format classes hfmt hr, if_neg hcont]
      rw [h1]
      have hcont2 : (classes ++ [fc]).contains fc = true := by simp
      rw [hstep (classes ++ [fc]) c fc hfmt hr hcont2]
  · set_option maxRecDepth 8000 in rfl

/-- Witness for C8: re-issuing `l` with bold already active, and the
double-issue state equation from the empty state. -/
theorem C8_style_idempotent_witness :
    loopBody ["mcformat-bold"] ['§', 'l'] = ([markerSpan 'l'], ["mcformat-bold"])
    ∧ (loopBody ((loopBody [] ['§', 'l']).2) ['§', 'l']).2 = (loopBody [] ['§', 'l']).2 :=
  ⟨C8_style_idempotent.1 ["mcformat-bold"] 'l' "mcformat-bold"
     (by decide) (by decide) (by decide),
   C8_style_idempotent.2.1 [] 'l' "mcformat-bold" (by decide) (by decide)⟩

/-- C2: every input of the form `host:port` whose port is on the fixed
denylist makes `parse_server_address` fail with the `BlockedPort` error,
whatever the host part and however the environment classifies it. -/
theorem C2_blocked_port (env : String → HostClass) (host portStr : String) (p : Int)
    (hpy : pyInt portStr = some p) (hmem : p ∈ blocked_ports)
    (hnc : ':' ∉ portStr.data) :
    parse_server_address env (host ++ ":" ++ portStr) =
      Except.error (ResolveError.blockedPort
        ("Port " ++ toString p ++ " is not allowed for security reasons")) := by
  have hsplit := rsplitColon_append host portStr hnc
  simp only [parse_server_address, hsplit, hpy]
  fin_cases hmem <;> rfl

/-- Witness for C2 at a concrete input: port 22 on a host the environment
classifies as private (so host validity is irrelevant). -/
theorem C2_blocked_port_witness :
    pyInt "22" = some 22 ∧ (22 : Int) ∈ blocked_ports ∧ ':' ∉ "22".data
    ∧ parse_server_address (fun _ => HostClass.privateAddr) ("internal.db" ++ ":" ++ "22") =
        Except.error (ResolveError.blockedPort
          ("Port " ++ toString (22 : Int) ++ " is not allowed for security reasons")) :=
  ⟨rfl, by decide, by decide,
   C2_blocked_port (fun _ => HostClass.privateAddr) "internal.db" "22" 22 rfl
     (by decide) (by decide)⟩

/-- C3: whenever the address parses and the status query raises a
timeout/connection/OS error, `fetch_server_status` yields `None` (the
exception is not propagated) and `get_server_info` returns the synthetic
offline snapshot: `online = false`, the fixed text `"Server Offline"`,
zero players, version `"Unknown"`, no icon. -/
theorem C3_offline_snapshot (env : String → HostClass)
    (net : String → Int → Except NetError Status) (ip h : String) (p : Int)
    (e : NetError) (hparse : parse_server_address env ip = Except.ok (h, p))
    (hnet : net h p = Except.error e) :
    fetch_server_status env net ip = none
    ∧ get_server_info env net ip = some (offlineServerInfo ip) := by
  have hf : fetch_server_status env net ip = none := by
    simp [fetch_server_status, hparse, hnet]
  exact ⟨hf, by simp [get_server_info, hf]⟩

/-- Witness for C3 at a concrete address with a timing-out network. -/
theorem C3_offline_snapshot_witness :
    fetch_server_status (fun _ => HostClass.publicAddr)
      (fun _ _ => Except.error NetError.timeout) "mc.example.com" = none
    ∧ get_server_info (fun _ => HostClass.publicAddr)
        (fun _ _ => Except.error NetError.timeout) "mc.example.com" =
        some (offlineServerInfo "mc.example.com") :=
  C3_offline_snapshot (fun _ => HostClass.publicAddr)
    (fun _ _ => Except.error NetError.timeout) "mc.example.com" "mc.example.com"
    25565 NetError.timeout rfl rfl

/-- C9: the HTML-escape step performed on the raw text before tokenizing
never changes how format markers are tokenized: the sequence of recognized
markers of the escaped text is exactly that of the unescaped text — no
marker is lost and none is created by escaping. -/
theorem C9_escape_preserves_markers (s : String) :
    markersOf (tokenize (escapeChars s.data)) = markersOf (tokenize s.data) :=
  markers_escape s.data

/-- C4: for a well-formed cache with the configured capacity 1000 and TTL
30 seconds: `set` keeps the entry count within 1000 and preserves
well-formedness; `get` only returns a value whose entry is still unexpired,
and an entry whose expiry time has passed is treated as absent; inserting a
fresh key into a full cache of unexpired entries evicts exactly the
least-recently-used entry, independent of the entries' remaining
lifetimes; and immediately after `set k v` at time `now`, `get k` at the
same time returns `v`. -/
theorem C4_cache_invariants {α : Type} (c : ThreadSafeTTLCache α) (now : Nat)
    (k : String) (v : α) (hmax : c.maxsize = 1000) (httl : c.ttl = 30)
    (hwf : c.wf) :
    ((c.set now k v).entries.length ≤ 1000 ∧ (c.set now k v).wf)
    ∧ (∀ w : α, (c.get now k).1 = some w →
        ∃ exp, (k, w, exp) ∈ c.entries ∧ now < exp)
    ∧ (∀ (w : α) (exp : Nat), (k, w, exp) ∈ c.entries → ¬ now < exp →
        (c.get now k).1 = none)
    ∧ (c.entries.length = 1000 → (∀ e ∈ c.entries, now < e.2.2) →
        (∀ e ∈ c.entries, e.1 ≠ k) →
        (c.set now k v).entries = c.entries.tail ++ [(k, v, now + 30)])
    ∧ ((c.set now k v).get now k).1 = some v := by
  have hmax1 : 1 ≤ c.maxsize := by omega
  refine ⟨⟨?_, ?_, ?_⟩, fun w hw => cache_get_fresh c now k hw,
    fun w exp hm hx => cache_get_expired c now k hwf.1 hm hx,
    fun hlen hfresh hnone => ?_,
    cache_get_after_set c now k v (by omega)⟩
  · rw [← hmax]
    exact cache_set_length c now k v hmax1
  · exact cache_set_nodup c now k v hwf.1
  · show (c.set now k v).entries.length ≤ c.maxsize
    exact cache_set_length c now k v hmax1
  · have he1 : expireEntries now c.entries = c.entries :=
      List.filter_eq_self.mpr (fun e he => by simp [hfresh e he])
    have he2 : c.entries.filter (fun e => !(e.1 == k)) = c.entries :=
      List.filter_eq_self.mpr (fun e he => by simp [hnone e he])
    show (if ((expireEntries now c.entries).filter (fun e => !(e.1 == k))).length + 1
            ≤ c.maxsize
          then (expireEntries now c.entries).filter (fun e => !(e.1 == k))
          else ((expireEntries now c.entries).filter (fun e => !(e.1 == k))).drop
            (((expireEntries now c.entries).filter (fun e => !(e.1 == k))).length + 1
              - c.maxsize))
        ++ [(k, v, now + c.ttl)] = c.entries.tail ++ [(k, v, now + 30)]
    rw [he1, he2, httl, hmax, hlen, if_neg (by omega),
      show (1000 + 1 - 1000) = 1 from rfl, List.drop_one]

/-- Witness for C4 on a concrete one-entry cache with capacity 1000 and
TTL 30. -/
theorem C4_cache_invariants_witness :
    ((sampleCache.set 5 "b" 2).entries.length ≤ 1000 ∧ (sampleCache.set 5 "b" 2).wf)
    ∧ (∀ w : Nat, (sampleCache.get 5 "b").1 = some w →
        ∃ exp, ("b", w, exp) ∈ sampleCache.entries ∧ 5 < exp)
    ∧ (∀ (w : Nat) (exp : Nat), ("b", w, exp) ∈ sampleCache.entries → ¬ 5 < exp →
        (sampleCache.get 5 "b").1 = none)
    ∧ (sampleCache.entries.length = 1000 → (∀ e ∈ sampleCache.entries, 5 < e.2.2) →
        (∀ e ∈ sampleCache.entries, e.1 ≠ "b") →
        (sampleCache.set 5 "b" 2).entries =
          sampleCache.entries.tail ++ [("b", 2, 5 + 30)])
    ∧ ((sampleCache.set 5 "b" 2).get 5 "b").1 = some 2 :=
  C4_cache_invariants sampleCache 5 "b" 2 rfl rfl (by constructor <;> decide)

/-- C10: `parse_motd_json` returns the empty string, raising nothing, on
every input that is neither a string nor a dict (numbers, lists, booleans,
`None`), and on any dict carrying neither a `text` field nor an `extra`
field. -/
theorem C10_non_node_inputs_yield_empty :
    (∀ n : Int, parse_motd_json (Json.num n) = some "")
    ∧ (∀ xs : List Json, parse_motd_json (Json.arr xs) = some "")
    ∧ parse_motd_json Json.null = some ""
    ∧ (∀ b : Bool, parse_motd_json (Json.bool b) = some "")
    ∧ (∀ fs : List (String × Json), getField fs "text" = none →
        getField fs "extra" = none → parse_motd_json (Json.obj fs) = some "") := by
  refine ⟨fun _ => rfl, fun _ => rfl, rfl, fun _ => rfl, fun fs ht he => ?_⟩
  simp [parse_motd_json, ht, he]

/-- Witness for C10 on a dict with neither `text` nor `extra`. -/
theorem C10_non_node_inputs_witness :
    parse_motd_json (Json.obj [("foo", Json.null)]) = some "" :=
  C10_non_node_inputs_yield_empty.2.2.2.2 [("foo", Json.null)] rfl rfl

end MotdEmbed
